import Mathlib

/-!
Shallow embedding of the core inference code of the repository:
the ADVI engine (`src/stan/variational/advi.hpp`), the static-length
HMC sampler (`src/stan/mcmc/hmc/static/base_static_hmc.hpp`) and the
unit-metric NUTS U-turn criterion
(`src/stan/mcmc/hmc/nuts/unit_e_nuts.hpp`).

Doubles are modelled by exact rationals; where the code's behaviour on
IEEE special values (NaN, ±∞) matters, a dedicated four-constructor type
`Fl` carries the special-value algebra.  Stochastic oracles (the model's
log density, the RNG, the leapfrog integrator) enter as explicit
function or list parameters, so every definition is executable.
-/

/-! ### ADVI: `calc_ELBO` (advi.hpp lines 88-125)

The while-loop draws from the variational family and evaluates the
model's log density until `n_monte_carlo_elbo_` finite values have been
accumulated.  A draw's outcome is modelled as `Option ℚ`: `some e` is a
finite evaluation `e`, `none` is an evaluation that threw (either the
model's domain error or the `check_finite` failure).  Reaching
`n_monte_carlo_elbo_` dropped evaluations raises a domain error naming
that limit, modelled as `Except.error N`.  The outer `Option` is `none`
only if the supplied draw stream runs out. -/

def calcELBOFrom (N : ℕ) (entropy : ℚ) :
    ℕ → ℕ → ℚ → List (Option ℚ) → Option (Except ℕ ℚ)
  | i, _, acc, [] =>
      if N ≤ i then some (Except.ok (acc / (N : ℚ) + entropy)) else none
  | i, drop, acc, Option.none :: rest =>
      if N ≤ i then some (Except.ok (acc / (N : ℚ) + entropy))
      else if N ≤ drop + 1 then some (Except.error N)
      else calcELBOFrom N entropy i (drop + 1) acc rest
  | i, drop, acc, Option.some e :: rest =>
      if N ≤ i then some (Except.ok (acc / (N : ℚ) + entropy))
      else calcELBOFrom N entropy (i + 1) drop (acc + e) rest

def calc_ELBO (N : ℕ) (entropy : ℚ) (draws : List (Option ℚ)) :
    Option (Except ℕ ℚ) :=
  calcELBOFrom N entropy 0 0 0 draws

/-! ### ADVI: relative ELBO difference (advi.hpp lines 344, 524-527)

`rel_difference_(prev, curr)` returns `|curr - prev| / |prev|`; the
convergence check calls it as `rel_difference_(elbo, elbo_prev)`, so the
value pushed into the circular buffer binds `prev := elbo` (the current
ELBO) and `curr := elbo_prev`. -/

def rel_difference_ (prev curr : ℚ) : ℚ := |curr - prev| / |prev|

def delta_elbo_pushed (elbo elbo_prev : ℚ) : ℚ := rel_difference_ elbo elbo_prev

/-! ### ADVI: circular-buffer capacity (advi.hpp lines 297-301)

`static_cast<int>` on a non-negative double truncates, i.e. takes the
floor; `truncToInt` is C++ float-to-int conversion (round toward zero). -/

def truncToInt (q : ℚ) : ℤ := if 0 ≤ q then ⌊q⌋ else ⌈q⌉

def cb_size (max_iterations eval_elbo : ℕ) : ℤ :=
  truncToInt (max ((1 / 10) * (max_iterations : ℚ) / (eval_elbo : ℚ)) 2)

/-! ### ADVI: the tuning loop of `tune` (advi.hpp lines 155-254)

One pass of the `while (do_more_tuning)` loop, after the 50 adaptive
iterations have produced `elbo = calc_ELBO(variational)` (the measured
ELBO enters as an oracle value).  The loop state carries the remaining
eta sequence and the tracking variables; `hasPrint` records whether a
print stream was supplied, because the source's `return 0` on
exhaustion sits inside `if (print_stream_)`. -/

structure TuneState where
  etaSeq : List ℚ
  eta : ℚ
  elboInit : ℚ
  elboBest : ℚ
  etaBest : ℚ
deriving DecidableEq, Repr

inductive TuneOutcome where
  | done (etaBest : ℚ)
  | ret (v : ℚ)
  | cont (s : TuneState)
deriving DecidableEq, Repr

def tuneStep (hasPrint : Bool) (s : TuneState) (elbo : ℚ) : TuneOutcome :=
  if elbo < s.elboBest ∧ s.elboInit < s.elboBest then
    TuneOutcome.done s.etaBest
  else
    match s.etaSeq with
    | e :: rest =>
        TuneOutcome.cont
          { s with etaSeq := rest, eta := e, elboBest := elbo, etaBest := s.eta }
    | [] =>
        if s.elboInit < elbo then TuneOutcome.done s.eta
        else if hasPrint then TuneOutcome.ret 0
        else TuneOutcome.cont s

/-- Run the tuning loop with a constant measured-ELBO oracle and a fuel
bound; `none` means the fuel ran out with the loop still going. -/
def tuneRun (hasPrint : Bool) (elbo : ℚ) : ℕ → TuneState → Option ℚ
  | 0, _ => none
  | fuel + 1, s =>
    match tuneStep hasPrint s elbo with
    | TuneOutcome.done e => some e
    | TuneOutcome.ret v => some v
    | TuneOutcome.cont s2 => tuneRun hasPrint elbo fuel s2

/-! ### IEEE-754 special values over exact rationals

`base_static_hmc::transition` manipulates doubles that can be NaN or
±∞ (`boost::math::isnan`, `std::numeric_limits<double>::infinity()`),
and its comparisons follow IEEE semantics (every ordered comparison
with NaN is false).  `Fl` carries that special-value algebra with an
exact rational payload for the finite case. -/

inductive Fl where
  | real (x : ℚ)
  | pinf
  | ninf
  | nan
deriving DecidableEq, Repr

/-- IEEE subtraction on `Fl`: ∞ − ∞ (same sign) and anything with NaN
give NaN. -/
def Fl.sub : Fl → Fl → Fl
  | Fl.nan, _ => Fl.nan
  | _, Fl.nan => Fl.nan
  | Fl.real a, Fl.real b => Fl.real (a - b)
  | Fl.real _, Fl.pinf => Fl.ninf
  | Fl.real _, Fl.ninf => Fl.pinf
  | Fl.pinf, Fl.real _ => Fl.pinf
  | Fl.pinf, Fl.ninf => Fl.pinf
  | Fl.pinf, Fl.pinf => Fl.nan
  | Fl.ninf, Fl.real _ => Fl.ninf
  | Fl.ninf, Fl.pinf => Fl.ninf
  | Fl.ninf, Fl.ninf => Fl.nan

/-- IEEE strict less-than on `Fl`: false whenever either side is NaN. -/
def Fl.lt : Fl → Fl → Bool
  | Fl.nan, _ => false
  | _, Fl.nan => false
  | Fl.real a, Fl.real b => decide (a < b)
  | Fl.real _, Fl.pinf => true
  | Fl.real _, Fl.ninf => false
  | Fl.pinf, _ => false
  | Fl.ninf, Fl.ninf => false
  | Fl.ninf, _ => true

def Fl.isNaN : Fl → Bool
  | Fl.nan => true
  | _ => false

def Fl.neg : Fl → Fl
  | Fl.real x => Fl.real (-x)
  | Fl.pinf => Fl.ninf
  | Fl.ninf => Fl.pinf
  | Fl.nan => Fl.nan

/-- `std::exp` on `Fl`, parameterized by its behaviour `fexp` on finite
arguments (IEEE guarantees only that the result of a finite argument is
a non-negative double, possibly 0 on underflow or +∞ on overflow).
exp(−∞) = 0, exp(+∞) = +∞, exp(NaN) = NaN. -/
def Fl.expWith (fexp : ℚ → Fl) : Fl → Fl
  | Fl.real x => fexp x
  | Fl.pinf => Fl.pinf
  | Fl.ninf => Fl.real 0
  | Fl.nan => Fl.nan

/-- The IEEE contract of `std::exp` on finite arguments: non-negative
finite, or +∞ on overflow. -/
def ExpLike (fexp : ℚ → Fl) : Prop :=
  ∀ x : ℚ, fexp x = Fl.pinf ∨ ∃ q : ℚ, 0 ≤ q ∧ fexp x = Fl.real q

/-- Membership of an `Fl` value in the closed interval [0, 1]; NaN and
the infinities are not in it. -/
def Fl.inUnit : Fl → Bool
  | Fl.real x => decide (0 ≤ x) && decide (x ≤ 1)
  | _ => false

/-! ### Static-length HMC: `transition`
(base_static_hmc.hpp lines 29-56)

The phase-space point holds position `q` and momentum `p`
(`ps_point`).  The external collaborators enter as parameters:

* `fexp` – the finite-argument behaviour of `std::exp`;
* `Hf`   – the Hamiltonian `hamiltonian_.H` as a function of the point
  (its value may be any double, including NaN and ±∞, for models with
  non-finite energies);
* `Vf`   – the potential `hamiltonian_.V`;
* `evolveL` – the composition of the `L_` calls of
  `integrator_.evolve` (the whole for-loop);
* `u`    – the value drawn by `rand_uniform_()`;
* `p0`   – the momentum drawn by `hamiltonian_.sample_p`.

`seed(init_sample.cont_params())` copies the initial sample's
continuous parameters into `z_.q`; `ps_point z_init(this->z_)` is the
value snapshot that the rejection branch restores. -/

structure PsPoint where
  q : List ℚ
  p : List ℚ
deriving DecidableEq, Repr

structure Sample where
  cont_params : List ℚ
  log_prob : Fl
  accept_stat : Fl
deriving DecidableEq, Repr

/-- `exp(H0 - h)` after the NaN guard `if (isnan(h)) h = inf;`. -/
def acceptProbOf (fexp : ℚ → Fl) (H0 h0 : Fl) : Fl :=
  Fl.expWith fexp (Fl.sub H0 (if h0.isNaN then Fl.pinf else h0))

/-- The rejection condition `acceptProb < 1 && rand_uniform_() > acceptProb`. -/
def metropolisRejects (acceptProb : Fl) (u : ℚ) : Bool :=
  Fl.lt acceptProb (Fl.real 1) && Fl.lt acceptProb (Fl.real u)

/-- The final clamp `acceptProb = acceptProb > 1 ? 1 : acceptProb;`. -/
def clampAccept (acceptProb : Fl) : Fl :=
  if Fl.lt (Fl.real 1) acceptProb then Fl.real 1 else acceptProb

/-- `base_static_hmc::transition`, returning the sample together with
the sampler's final point `z_`. -/
def transition (fexp : ℚ → Fl) (Hf Vf : PsPoint → Fl)
    (evolveL : PsPoint → PsPoint) (u : ℚ) (p0 : List ℚ)
    (init_sample : Sample) : Sample × PsPoint :=
  let z0 : PsPoint := { q := init_sample.cont_params, p := p0 }
  let z_init := z0
  let H0 := Hf z0
  let z1 := evolveL z0
  let acceptProb := acceptProbOf fexp H0 (Hf z1)
  let z2 := if metropolisRejects acceptProb u then z_init else z1
  ({ cont_params := z2.q,
     log_prob := Fl.neg (Vf z2),
     accept_stat := clampAccept acceptProb }, z2)

/-! ### Static-length HMC: integration-time state and setters
(base_static_hmc.hpp lines 68-112) -/

structure StaticHmcState where
  nom_epsilon : ℚ
  T : ℚ
  L : ℤ
deriving DecidableEq, Repr

/-- `L_ = static_cast<int>(T_ / nom_epsilon_); L_ = L_ < 1 ? 1 : L_;` -/
def update_L_ (s : StaticHmcState) : StaticHmcState :=
  let l := truncToInt (s.T / s.nom_epsilon)
  { s with L := if l < 1 then 1 else l }

def set_nominal_stepsize_and_T (e t : ℚ) (s : StaticHmcState) :
    StaticHmcState :=
  if 0 < e ∧ 0 < t then update_L_ { s with nom_epsilon := e, T := t } else s

def set_nominal_stepsize_and_L (e : ℚ) (l : ℤ) (s : StaticHmcState) :
    StaticHmcState :=
  if 0 < e ∧ 0 < l then { nom_epsilon := e, L := l, T := e * (l : ℚ) } else s

def set_T (t : ℚ) (s : StaticHmcState) : StaticHmcState :=
  if 0 < t then update_L_ { s with T := t } else s

def set_nominal_stepsize (e : ℚ) (s : StaticHmcState) : StaticHmcState :=
  if 0 < e then update_L_ { s with nom_epsilon := e } else s

def get_T (s : StaticHmcState) : ℚ := s.T

def get_L (s : StaticHmcState) : ℤ := s.L

/-! ### NUTS with unit metric: `compute_criterion`
(unit_e_nuts.hpp lines 26-31) -/

/-- Euclidean dot product of two coordinate vectors (`Eigen`'s `.dot`). -/
def vdot (a b : List ℚ) : ℚ := (List.zipWith (· * ·) a b).sum

/-- Componentwise vector difference (`Eigen`'s `operator-`). -/
def vsub (a b : List ℚ) : List ℚ := List.zipWith (· - ·) a b

/-- `unit_e_nuts::compute_criterion(start, finish, rho)`:
`finish.p.dot(rho - finish.p) > 0 && start.p.dot(rho - start.p) > 0`. -/
def compute_criterion (start finish : PsPoint) (rho : List ℚ) : Bool :=
  decide (0 < vdot finish.p (vsub rho finish.p)) &&
    decide (0 < vdot start.p (vsub rho start.p))

/-! ## Theorems -/

/-- A shared concrete stand-in for `std::exp` on finite arguments,
satisfying the IEEE contract `ExpLike`. -/
def expOracle : ℚ → Fl := fun _ => Fl.real 1

theorem expOracle_expLike : ExpLike expOracle :=
  fun _ => Or.inr ⟨1, by norm_num, rfl⟩

/-- C2 counterexample: at elbo = 4, elbo_prev = 1 the value pushed into
the circular buffer is |1 − 4| / |4| = 3/4, not the claimed
|4 − 1| / |1| = 3, so the difference is not normalized by the previous
ELBO. -/
theorem delta_elbo_not_normalized_by_previous :
    delta_elbo_pushed 4 1 ≠ |(4 : ℚ) - 1| / |(1 : ℚ)| := by
  unfold delta_elbo_pushed rel_difference_
  norm_num

/-- C2 (amended): in every convergence check the relative ELBO
difference pushed into the circular buffer equals
|elbo − elbo_prev| / |elbo|, i.e. the change is normalized by the
current ELBO value, because `rel_difference_` is called with the
arguments swapped relative to its (prev, curr) parameter order. -/
theorem delta_elbo_normalized_by_current (elbo elbo_prev : ℚ) :
    delta_elbo_pushed elbo elbo_prev = |elbo - elbo_prev| / |elbo| := by
  unfold delta_elbo_pushed rel_difference_
  rw [abs_sub_comm]

/-- Helper: with positive step size and integration time, `update_L_`
computes `max 1 ⌊T/ε⌋`. -/
theorem update_L_pos (s : StaticHmcState) (he : 0 < s.nom_epsilon)
    (ht : 0 < s.T) : (update_L_ s).L = max 1 ⌊s.T / s.nom_epsilon⌋ := by
  have hq : (0 : ℚ) ≤ s.T / s.nom_epsilon := le_of_lt (div_pos ht he)
  have h1 : truncToInt (s.T / s.nom_epsilon) = ⌊s.T / s.nom_epsilon⌋ := by
    unfold truncToInt
    rw [if_pos hq]
  show (if truncToInt (s.T / s.nom_epsilon) < 1 then 1
        else truncToInt (s.T / s.nom_epsilon)) = max 1 ⌊s.T / s.nom_epsilon⌋
  rw [h1]
  split <;> omega

/-- C7: for every nominal step size e > 0 and integration time t > 0,
after `set_nominal_stepsize_and_T(e, t)` (or `set_T` when the stored
step size is e, or `set_nominal_stepsize` when the stored time is t)
the leapfrog step count is `get_L() = max(1, ⌊t / e⌋)`; in particular
e = 0.3, t = 1.0 gives L = 3 and e = 2.0, t = 1.0 gives L = 1. -/
theorem static_hmc_L_spec (e t : ℚ) (s : StaticHmcState)
    (he : 0 < e) (ht : 0 < t) :
    get_L (set_nominal_stepsize_and_T e t s) = max 1 ⌊t / e⌋ ∧
    (s.nom_epsilon = e → get_L (set_T t s) = max 1 ⌊t / e⌋) ∧
    (s.T = t → get_L (set_nominal_stepsize e s) = max 1 ⌊t / e⌋) ∧
    get_L (set_nominal_stepsize_and_T (3 / 10) 1 s) = 3 ∧
    get_L (set_nominal_stepsize_and_T 2 1 s) = 1 := by
  have main : ∀ (e2 t2 : ℚ) (s2 : StaticHmcState), 0 < e2 → 0 < t2 →
      get_L (set_nominal_stepsize_and_T e2 t2 s2) = max 1 ⌊t2 / e2⌋ := by
    intro e2 t2 s2 he2 ht2
    unfold set_nominal_stepsize_and_T get_L
    rw [if_pos ⟨he2, ht2⟩]
    exact update_L_pos _ he2 ht2
  refine ⟨main e t s he ht, ?_, ?_, ?_, ?_⟩
  · intro hs
    unfold set_T get_L
    rw [if_pos ht]
    have := update_L_pos { s with T := t } (by simpa [hs] using he) ht
    simpa [hs] using this
  · intro hs
    unfold set_nominal_stepsize get_L
    rw [if_pos he]
    have := update_L_pos { s with nom_epsilon := e } he (by simpa [hs] using ht)
    simpa [hs] using this
  · rw [main (3 / 10) 1 s (by norm_num) (by norm_num),
        show ((1 : ℚ) / (3 / 10)) = 10 / 3 by norm_num]
    norm_num
  · rw [main 2 1 s (by norm_num) (by norm_num)]
    norm_num

/-- Witness for C7 at e = 3/10, t = 1. -/
theorem static_hmc_L_spec_witness :
    get_L (set_nominal_stepsize_and_T (3 / 10) 1
      { nom_epsilon := 1, T := 1, L := 1 }) = max 1 ⌊(1 : ℚ) / (3 / 10)⌋ :=
  (static_hmc_L_spec (3 / 10) 1 { nom_epsilon := 1, T := 1, L := 1 }
    (by norm_num) (by norm_num)).1

/-- C10: calling any of the four static-HMC setters with a non-positive
argument is a silent no-op: the state (nominal step size, integration
time T, step count L) is returned unchanged. -/
theorem setters_nonpositive_noop (s : StaticHmcState) (e t : ℚ) (l : ℤ) :
    ((e ≤ 0 ∨ t ≤ 0) → set_nominal_stepsize_and_T e t s = s) ∧
    ((e ≤ 0 ∨ (l : ℤ) ≤ 0) → set_nominal_stepsize_and_L e l s = s) ∧
    (t ≤ 0 → set_T t s = s) ∧
    (e ≤ 0 → set_nominal_stepsize e s = s) := by
  refine ⟨?_, ?_, ?_, ?_⟩ <;> intro h
  · rcases h with h | h <;>
      simp [set_nominal_stepsize_and_T, not_lt.mpr h]
  · rcases h with h | h <;>
      simp [set_nominal_stepsize_and_L, not_lt.mpr h]
  · simp [set_T, not_lt.mpr h]
  · simp [set_nominal_stepsize, not_lt.mpr h]

/-- Witness for C10: `set_T(-1)` leaves the state unchanged. -/
theorem setters_nonpositive_noop_witness :
    set_T (-1) { nom_epsilon := 1, T := 1, L := 1 }
      = { nom_epsilon := 1, T := 1, L := 1 } :=
  (setters_nonpositive_noop { nom_epsilon := 1, T := 1, L := 1 }
    (-1) (-1) (-1)).2.2.1 (by norm_num)

/-- C8 counterexample: at max_iterations = 2500, eval_elbo = 100 the
code truncates 0.1·2500/100 = 2.5 to 2, while the claimed formula
max(⌈2.5⌉, 2) gives 3. -/
theorem cb_size_ceil_counterexample :
    cb_size 2500 100 = 2 ∧
      max ⌈(1 / 10 : ℚ) * 2500 / 100⌉ 2 = 3 := by
  constructor
  · unfold cb_size truncToInt
    norm_num [max_def]
  · have h3 : ⌈(1 / 10 : ℚ) * 2500 / 100⌉ = 3 := by
      rw [show (1 / 10 : ℚ) * 2500 / 100 = 5 / 2 by norm_num, Int.ceil_eq_iff]
      norm_num
    rw [h3]
    norm_num [max_def]

/-- Helper: the floor of `max x 2` is `max ⌊x⌋ 2`. -/
theorem floor_max_two (x : ℚ) : ⌊max x 2⌋ = max ⌊x⌋ 2 := by
  rcases le_total x 2 with h | h
  · rw [max_eq_right h,
        max_eq_right (le_trans (Int.floor_mono h) (by norm_num))]
    norm_num
  · rw [max_eq_left h,
        max_eq_left (le_trans (by norm_num) (Int.floor_mono h))]

/-- C8 (amended): the circular buffer is created with capacity
max(⌊0.1 · max_iterations / eval_elbo⌋, 2) — the C++ int cast
truncates (floors, as the quantity is non-negative) rather than taking
the ceiling. -/
theorem cb_size_floor_spec (m e : ℕ) (hm : 0 < m) (he : 0 < e) :
    cb_size m e = max ⌊(1 / 10 : ℚ) * (m : ℚ) / (e : ℚ)⌋ 2 := by
  unfold cb_size truncToInt
  have h2 : (0 : ℚ) ≤ max ((1 / 10) * (m : ℚ) / (e : ℚ)) 2 :=
    le_trans (by norm_num) (le_max_right _ _)
  rw [if_pos h2, floor_max_two]

/-- Witness for C8 at max_iterations = 2500, eval_elbo = 100. -/
theorem cb_size_floor_spec_witness :
    cb_size 2500 100 = max ⌊(1 / 10 : ℚ) * (2500 : ℚ) / (100 : ℚ)⌋ 2 :=
  cb_size_floor_spec 2500 100 (by norm_num) (by norm_num)

/-- C9: `unit_e_nuts::compute_criterion(start, finish, rho)` returns
true iff both p_finish · (rho − p_finish) > 0 and
p_start · (rho − p_start) > 0, with literal Euclidean dot products. -/
theorem compute_criterion_spec (start finish : PsPoint) (rho : List ℚ) :
    compute_criterion start finish rho = true ↔
      (0 < vdot finish.p (vsub rho finish.p) ∧
        0 < vdot start.p (vsub rho start.p)) := by
  simp [compute_criterion]

/-- Helper: a run of `d` dropped evaluations with `drop + d` still
below the limit only advances the drop counter. -/
theorem calcELBOFrom_absorb_drops (N : ℕ) (ent : ℚ) :
    ∀ (d i drop : ℕ) (acc : ℚ) (rest : List (Option ℚ)),
      i < N → drop + d < N →
      calcELBOFrom N ent i drop acc (List.replicate d Option.none ++ rest)
        = calcELBOFrom N ent i (drop + d) acc rest := by
  intro d
  induction d with
  | zero => intro i drop acc rest _ _; simp
  | succ k ih =>
      intro i drop acc rest hi hd
      rw [List.replicate_succ, List.cons_append, calcELBOFrom,
          if_neg (by omega), if_neg (by omega)]
      rw [ih i (drop + 1) acc rest hi (by omega)]
      congr 1
      omega

/-- Helper: once `N ≤ i`, the loop exits with the accumulated estimate
whatever draws remain. -/
theorem calcELBOFrom_done (N : ℕ) (ent : ℚ) (i drop : ℕ) (acc : ℚ)
    (t : List (Option ℚ)) (h : N ≤ i) :
    calcELBOFrom N ent i drop acc t
      = some (Except.ok (acc / (N : ℚ) + ent)) := by
  cases t with
  | nil => rw [calcELBOFrom, if_pos h]
  | cons hd tl => cases hd <;> rw [calcELBOFrom, if_pos h]

/-- Helper: a run of finite evaluations completing the required count
accumulates their sum. -/
theorem calcELBOFrom_somes (N : ℕ) (ent : ℚ) :
    ∀ (vs : List ℚ) (i drop : ℕ) (acc : ℚ) (t : List (Option ℚ)),
      i + vs.length = N →
      calcELBOFrom N ent i drop acc (vs.map Option.some ++ t)
        = some (Except.ok ((acc + vs.sum) / (N : ℚ) + ent)) := by
  intro vs
  induction vs with
  | nil =>
      intro i drop acc t h
      simp only [List.length_nil, Nat.add_zero] at h
      rw [List.map_nil, List.nil_append,
          calcELBOFrom_done N ent i drop acc t (le_of_eq h.symm)]
      simp
  | cons v vs ih =>
      intro i drop acc t h
      rw [List.map_cons, List.cons_append, calcELBOFrom,
          if_neg (by simp at h; omega)]
      rw [ih (i + 1) drop (acc + v) t (by simp at h ⊢; omega)]
      congr 2
      rw [List.sum_cons]
      ring

/-- Helper: when the drop counter reaches the limit the loop raises the
domain error naming the limit, whatever draws remain. -/
theorem calcELBOFrom_all_drops (N : ℕ) (ent : ℚ) :
    ∀ (k i drop : ℕ) (acc : ℚ) (t : List (Option ℚ)),
      i < N → drop + k + 1 = N →
      calcELBOFrom N ent i drop acc
          (List.replicate (k + 1) Option.none ++ t)
        = some (Except.error N) := by
  intro k
  induction k with
  | zero =>
      intro i drop acc t hi hd
      rw [List.replicate_succ, List.cons_append, calcELBOFrom,
          if_neg (by omega), if_pos (by omega)]
  | succ k ih =>
      intro i drop acc t hi hd
      rw [List.replicate_succ, List.cons_append, calcELBOFrom,
          if_neg (by omega), if_neg (by omega)]
      exact ih i (drop + 1) acc t hi (by omega)

/-- C3: (a) for a model whose log density never yields a finite value,
`calc_ELBO` raises the domain error naming the draw limit N after
exactly N dropped evaluations — any further draws in the stream are
never consumed; (b) whenever N finite evaluations are accumulated
(after any number d < N of dropped ones), `calc_ELBO` returns their sum
divided by N plus the variational family entropy. -/
theorem calc_ELBO_spec (N : ℕ) (ent : ℚ) (hN : 0 < N) :
    (∀ t, calc_ELBO N ent (List.replicate N Option.none ++ t)
        = some (Except.error N)) ∧
    (∀ (d : ℕ) (vs : List ℚ) (t : List (Option ℚ)), d < N → vs.length = N →
      calc_ELBO N ent
          (List.replicate d Option.none ++ (vs.map Option.some ++ t))
        = some (Except.ok (vs.sum / (N : ℚ) + ent))) := by
  constructor
  · intro t
    obtain ⟨k, rfl⟩ : ∃ k, N = k + 1 := ⟨N - 1, by omega⟩
    exact calcELBOFrom_all_drops (k + 1) ent k 0 0 0 t (by omega) (by omega)
  · intro d vs t hd hvs
    rw [calc_ELBO, calcELBOFrom_absorb_drops N ent d 0 0 0 _ hN (by omega)]
    rw [calcELBOFrom_somes N ent vs 0 (0 + d) 0 t (by omega)]
    rw [zero_add]

/-- Witness for C3 at N = 2, entropy = 5: two dropped evaluations raise
the error; values 3 and 7 after one drop give (3 + 7)/2 + 5. -/
theorem calc_ELBO_spec_witness :
    calc_ELBO 2 5 (List.replicate 2 Option.none ++ [])
        = some (Except.error 2) ∧
    calc_ELBO 2 5 (List.replicate 1 Option.none
          ++ ([(3 : ℚ), 7].map Option.some ++ []))
        = some (Except.ok (([(3 : ℚ), 7].sum / (2 : ℚ)) + 5)) :=
  ⟨(calc_ELBO_spec 2 5 (by norm_num)).1 [],
    (calc_ELBO_spec 2 5 (by norm_num)).2 1 [3, 7] [] (by norm_num) rfl⟩

/-- C4 counterexample: a model whose log density at the initial point
is NaN gives a NaN initial Hamiltonian H0; NaN propagates through
exp(H0 − h), survives the clamp (NaN > 1 is false), and the returned
accept_stat is NaN — outside [0, 1].  The exp oracle used satisfies the
IEEE contract, so the failure is not an artifact of the model of exp. -/
theorem accept_prob_nan_counterexample :
    ExpLike expOracle ∧
    Fl.inUnit ((transition expOracle (fun _ => Fl.nan) (fun _ => Fl.real 0)
        id (1 / 2) [0]
        { cont_params := [0], log_prob := Fl.real 0,
          accept_stat := Fl.real 1 }).1.accept_stat) = false :=
  ⟨expOracle_expLike, rfl⟩

/-- Helper: for a finite initial Hamiltonian, the clamped acceptance
probability is a rational in [0, 1] whatever the post-trajectory
Hamiltonian value is. -/
theorem clampAccept_in_unit (fexp : ℚ → Fl) (hexp : ExpLike fexp)
    (a : ℚ) (h0 : Fl) :
    Fl.inUnit (clampAccept (acceptProbOf fexp (Fl.real a) h0)) = true := by
  cases h0 with
  | real b =>
      show Fl.inUnit (clampAccept (Fl.expWith fexp
        (Fl.sub (Fl.real a) (Fl.real b)))) = true
      rcases hexp (a - b) with h | ⟨q, hq, h⟩
      · simp [Fl.sub, Fl.expWith, h, clampAccept, Fl.lt, Fl.inUnit]
      · by_cases h1 : (1 : ℚ) < q
        · simp [Fl.sub, Fl.expWith, h, clampAccept, Fl.lt, h1, Fl.inUnit]
        · simp [Fl.sub, Fl.expWith, h, clampAccept, Fl.lt, h1, Fl.inUnit]
          exact ⟨hq, not_lt.mp h1⟩
  | pinf => rfl
  | ninf => rfl
  | nan => rfl

/-- C4 (amended): for every transition whose initial Hamiltonian H0 is
finite — but not in general, see the NaN-H0 counterexample — the
accept_probability of the returned sample lies in [0, 1], for every
model (the post-trajectory Hamiltonian may be NaN or ±∞), every RNG
draw and every IEEE-conforming exp. -/
theorem accept_stat_in_unit_interval (fexp : ℚ → Fl) (Hf Vf : PsPoint → Fl)
    (evolveL : PsPoint → PsPoint) (u : ℚ) (p0 : List ℚ) (init : Sample)
    (hexp : ExpLike fexp) (a : ℚ)
    (hH0 : Hf { q := init.cont_params, p := p0 } = Fl.real a) :
    Fl.inUnit ((transition fexp Hf Vf evolveL u p0 init).1.accept_stat)
      = true := by
  show Fl.inUnit (clampAccept (acceptProbOf fexp
    (Hf { q := init.cont_params, p := p0 })
    (Hf (evolveL { q := init.cont_params, p := p0 })))) = true
  rw [hH0]
  exact clampAccept_in_unit fexp hexp a _

/-- Witness for C4 with an everywhere-zero Hamiltonian. -/
theorem accept_stat_in_unit_interval_witness :
    Fl.inUnit ((transition expOracle (fun _ => Fl.real 0)
        (fun _ => Fl.real 0) id (1 / 2) [0]
        { cont_params := [0], log_prob := Fl.real 0,
          accept_stat := Fl.real 1 }).1.accept_stat) = true :=
  accept_stat_in_unit_interval expOracle (fun _ => Fl.real 0)
    (fun _ => Fl.real 0) id (1 / 2) [0]
    { cont_params := [0], log_prob := Fl.real 0, accept_stat := Fl.real 1 }
    expOracle_expLike 0 rfl

/-- C5: whenever the Metropolis test rejects the proposed trajectory
(`acceptProb < 1 && rand_uniform_() > acceptProb`), the sampler state
is restored from the snapshot taken at trajectory start, so the
returned sample carries exactly the initial continuous parameters and
the final state is the snapshot. -/
theorem transition_reject_restores (fexp : ℚ → Fl) (Hf Vf : PsPoint → Fl)
    (evolveL : PsPoint → PsPoint) (u : ℚ) (p0 : List ℚ) (init : Sample)
    (hrej : metropolisRejects
        (acceptProbOf fexp (Hf { q := init.cont_params, p := p0 })
          (Hf (evolveL { q := init.cont_params, p := p0 }))) u = true) :
    (transition fexp Hf Vf evolveL u p0 init).1.cont_params
        = init.cont_params ∧
    (transition fexp Hf Vf evolveL u p0 init).2
        = { q := init.cont_params, p := p0 } := by
  simp [transition, hrej]

/-- Witness for C5: a trajectory made to fail by a model whose
Hamiltonian is +∞ away from the starting point (so acceptProb = 0 and
the uniform draw 1/2 rejects); the returned parameters equal the
initial ones even though the integrator moved the point. -/
theorem transition_reject_restores_witness :
    (transition expOracle
        (fun z => if z.q = [0] then Fl.real 0 else Fl.pinf)
        (fun _ => Fl.real 0)
        (fun z => { q := z.q.map (fun x => x + 1), p := z.p })
        (1 / 2) [1]
        { cont_params := [0], log_prob := Fl.real 0,
          accept_stat := Fl.real 1 }).1.cont_params = [0] ∧
    (transition expOracle
        (fun z => if z.q = [0] then Fl.real 0 else Fl.pinf)
        (fun _ => Fl.real 0)
        (fun z => { q := z.q.map (fun x => x + 1), p := z.p })
        (1 / 2) [1]
        { cont_params := [0], log_prob := Fl.real 0,
          accept_stat := Fl.real 1 }).2 = { q := [0], p := [1] } :=
  transition_reject_restores expOracle
    (fun z => if z.q = [0] then Fl.real 0 else Fl.pinf)
    (fun _ => Fl.real 0)
    (fun z => { q := z.q.map (fun x => x + 1), p := z.p })
    (1 / 2) [1]
    { cont_params := [0], log_prob := Fl.real 0, accept_stat := Fl.real 1 }
    (by norm_num [metropolisRejects, acceptProbOf, expOracle,
      Fl.isNaN, Fl.sub, Fl.expWith, Fl.lt])

/-- C6 counterexample: a post-trajectory Hamiltonian of −∞ is NOT
replaced by +∞ (the guard tests only `isnan`): exp(H0 − (−∞)) = +∞, the
Metropolis test cannot reject (∞ < 1 is false), the clamp returns 1,
and the trajectory endpoint — not the pre-trajectory state — is kept.
So −∞ is treated as certain acceptance, not as rejection. -/
theorem neg_inf_h_accepted_counterexample :
    (transition expOracle
        (fun z => if z.q = [0] then Fl.real 0 else Fl.ninf)
        (fun _ => Fl.real 0)
        (fun z => { q := z.q.map (fun x => x + 1), p := z.p })
        (1 / 2) [1]
        { cont_params := [0], log_prob := Fl.real 0,
          accept_stat := Fl.real 0 }).1.accept_stat = Fl.real 1 ∧
    (transition expOracle
        (fun z => if z.q = [0] then Fl.real 0 else Fl.ninf)
        (fun _ => Fl.real 0)
        (fun z => { q := z.q.map (fun x => x + 1), p := z.p })
        (1 / 2) [1]
        { cont_params := [0], log_prob := Fl.real 0,
          accept_stat := Fl.real 0 }).1.cont_params = [1] := by
  constructor <;>
    norm_num [transition, metropolisRejects, acceptProbOf, clampAccept,
      expOracle, Fl.isNaN, Fl.sub, Fl.expWith, Fl.lt]

/-- C6 (amended): of the non-finite post-trajectory Hamiltonian values,
NaN and +∞ are treated as rejection — NaN is replaced by +∞ by the
`isnan` guard, and in both cases (for finite H0) the acceptance
probability is exp(H0 − ∞) = 0, so with a positive uniform draw the
pre-trajectory state is kept; −∞, by contrast, is not replaced and
leads to certain acceptance (see the counterexample). -/
theorem nonfinite_h_rejection (fexp : ℚ → Fl) (Hf Vf : PsPoint → Fl)
    (evolveL : PsPoint → PsPoint) (u : ℚ) (p0 : List ℚ) (init : Sample)
    (a : ℚ) (hH0 : Hf { q := init.cont_params, p := p0 } = Fl.real a)
    (hh : Hf (evolveL { q := init.cont_params, p := p0 }) = Fl.nan ∨
          Hf (evolveL { q := init.cont_params, p := p0 }) = Fl.pinf)
    (hu : 0 < u) :
    (transition fexp Hf Vf evolveL u p0 init).1.accept_stat = Fl.real 0 ∧
    (transition fexp Hf Vf evolveL u p0 init).1.cont_params
        = init.cont_params := by
  have hap : acceptProbOf fexp (Hf { q := init.cont_params, p := p0 })
      (Hf (evolveL { q := init.cont_params, p := p0 })) = Fl.real 0 := by
    rcases hh with h | h <;>
      simp [acceptProbOf, hH0, h, Fl.isNaN, Fl.sub, Fl.expWith]
  have hrej : metropolisRejects
      (acceptProbOf fexp (Hf { q := init.cont_params, p := p0 })
        (Hf (evolveL { q := init.cont_params, p := p0 }))) u = true := by
    rw [hap]
    simp [metropolisRejects, Fl.lt, hu]
  constructor
  · show clampAccept (acceptProbOf fexp
      (Hf { q := init.cont_params, p := p0 })
      (Hf (evolveL { q := init.cont_params, p := p0 }))) = Fl.real 0
    rw [hap]
    rfl
  · simp [transition, hrej]

/-- Witness for C6: the +∞ case at a concrete failing trajectory. -/
theorem nonfinite_h_rejection_witness :
    (transition expOracle
        (fun z => if z.q = [2] then Fl.real 0 else Fl.pinf)
        (fun _ => Fl.real 0)
        (fun z => { q := z.q.map (fun x => x + 1), p := z.p })
        (1 / 2) [1]
        { cont_params := [2], log_prob := Fl.real 0,
          accept_stat := Fl.real 0 }).1.accept_stat = Fl.real 0 ∧
    (transition expOracle
        (fun z => if z.q = [2] then Fl.real 0 else Fl.pinf)
        (fun _ => Fl.real 0)
        (fun z => { q := z.q.map (fun x => x + 1), p := z.p })
        (1 / 2) [1]
        { cont_params := [2], log_prob := Fl.real 0,
          accept_stat := Fl.real 0 }).1.cont_params = [2] :=
  nonfinite_h_rejection expOracle
    (fun z => if z.q = [2] then Fl.real 0 else Fl.pinf)
    (fun _ => Fl.real 0)
    (fun z => { q := z.q.map (fun x => x + 1), p := z.p })
    (1 / 2) [1]
    { cont_params := [2], log_prob := Fl.real 0, accept_stat := Fl.real 0 }
    0 (by norm_num) (Or.inr (by norm_num)) (by norm_num)

/-- The tuning-loop state after the whole eta sequence
⟨1.0, 0.5, 0.1, 0.05, 0.01⟩ has been consumed with every measured ELBO
equal to −2 against elbo_init = 0: the queue is empty, the current eta
is 0.01, the tracked best ELBO (−2) never exceeded elbo_init, and
eta_best is the previously tried 0.05. -/
def tuneExhaustedState : TuneState :=
  { etaSeq := [], eta := 1 / 100, elboInit := 0, elboBest := -2,
    etaBest := 1 / 20 }

/-- Helper: at the exhausted state with a failing ELBO, the loop body
returns 0 when a print stream is present and re-enters the loop with
the state unchanged when it is absent. -/
theorem tuneStep_exhausted (hasPrint : Bool) :
    tuneStep hasPrint tuneExhaustedState (-2)
      = (if hasPrint then TuneOutcome.ret 0
         else TuneOutcome.cont tuneExhaustedState) := by
  cases hasPrint <;> norm_num [tuneStep, tuneExhaustedState]

/-- C1 (code evaluated at the failing input): with the eta sequence
exhausted and the last measured ELBO (−2) not above elbo_init (0), the
loop returns 0 in one step when a print stream was supplied, but with
no print stream the `return 0` is skipped — it sits inside
`if (print_stream_)` — and the loop re-runs with an unchanged state
forever: no fuel bound suffices for the run to finish, i.e. `tune`
never reports "all step sizes failed" and never returns 0. -/
theorem tune_exhausted_print_stream_dependent :
    tuneRun true (-2) 1 tuneExhaustedState = some 0 ∧
    ∀ fuel : ℕ, tuneRun false (-2) fuel tuneExhaustedState = none := by
  constructor
  · rw [tuneRun, tuneStep_exhausted true]
    rfl
  · intro fuel
    induction fuel with
    | zero => rfl
    | succ k ih =>
        rw [tuneRun, tuneStep_exhausted false]
        exact ih
